import Mathlib

/-!
Verification development for the discord-bots repository.

Shallow embedding conventions:
* Machine integers (`u8`, `u16`, `u64`, `i32`) are modelled as `Nat` (resp. `Int`),
  with explicit `/`, `%`, `*`, `+` in place of the source's shift/mask bit
  operations (`x >> k` becomes `x / 2^k`, `x & 0xFF` becomes `x % 256`,
  `x << k` becomes `x * 2^k`, and `|=` of disjoint bit ranges becomes `+`;
  the single-bit test `x & (1 << k) == 1 << k` becomes `x / 2^k % 2 == 1`,
  which agrees with the source for the byte values `< 256` that actually
  flow through these functions).
* A byte stream is a `List Nat`; the async reader is modelled by explicit
  state passing (`readExact` consumes a prefix and returns the rest), and
  fallible code returns `Except`.
* Randomness (`OsRng`) is passed in as an explicit argument.
-/

/-- `ws::header::Kind` (src/ws/header.rs). -/
inductive Kind where
  | Continuation
  | Text
  | Binary
  | Close
  | Ping
  | Pong
deriving DecidableEq, Repr

/-- `Kind::is_control` (src/ws/header.rs). -/
def Kind.is_control : Kind → Bool
  | .Continuation | .Text | .Binary => false
  | .Close | .Ping | .Pong => true

/-- The wire opcode each kind is encoded as in `Header::bytes`
(the `match self.kind` block of src/ws/header.rs, lines 198-205). -/
def Kind.opcode : Kind → Nat
  | .Continuation => 0
  | .Text => 1
  | .Binary => 2
  | .Close => 8
  | .Ping => 9
  | .Pong => 10

/-- `ws::header::MaskingKey` (`key: [u8; 4]`). -/
structure MaskingKey where
  k0 : Nat
  k1 : Nat
  k2 : Nat
  k3 : Nat
deriving DecidableEq, Repr

/-- `key[i]` for `i < 4` (indexing into the `[u8; 4]` array). -/
def MaskingKey.byte (k : MaskingKey) : Nat → Nat
  | 0 => k.k0
  | 1 => k.k1
  | 2 => k.k2
  | _ => k.k3

/-- `MaskingKey::apply`: XOR byte `i` of the payload with `key[i % 4]`. -/
def MaskingKey.apply (k : MaskingKey) (payload : List Nat) : List Nat :=
  payload.mapIdx fun i b => b ^^^ k.byte (i % 4)

/-- `ws::header::Error` (src/ws/header.rs).  `IoErr` stands for the
`Io(io::Error)` variant (produced when `read_exact` hits end of stream);
`OutOfFuel` is a model-only marker for non-termination of the frame
re-assembly loop (the Rust loop can spin forever on a non-final
`Continuation` header; the model runs it on explicit fuel). -/
inductive WsError where
  | InvalidLength
  | InvalidDataFrame
  | ReservedOpcode
  | NonUtf8Text
  | PrematureFinish
  | IoErr
  | OutOfFuel
deriving DecidableEq, Repr

/-- `reader.read_exact` into a buffer of `n` bytes: consumes exactly `n`
bytes of the stream, failing (io::ErrorKind::UnexpectedEof) when the
stream is shorter. -/
def readExact : Nat → List Nat → Except WsError (List Nat × List Nat)
  | 0, l => .ok ([], l)
  | _ + 1, [] => .error .IoErr
  | n + 1, b :: l =>
    match readExact n l with
    | .ok (xs, rest) => .ok (b :: xs, rest)
    | .error e => .error e

/-- The opcode decode table of `Header::read` (src/ws/header.rs lines
105-115): opcodes 3-7 and 11-15 are `ReservedOpcode`.  The argument is
`first & 0b1111` so it is always `< 16`. -/
def kindOfOpcode : Nat → Except WsError Kind
  | 0 => .ok .Continuation
  | 1 => .ok .Text
  | 2 => .ok .Binary
  | 8 => .ok .Close
  | 9 => .ok .Ping
  | 10 => .ok .Pong
  | _ => .error .ReservedOpcode

/-- `ws::header::Header` (src/ws/header.rs).  `extensions` is the
`[bool; 3]` array of reserved bits as a triple. -/
structure Header where
  is_final : Bool
  extensions : Bool × Bool × Bool
  kind : Kind
  payload_len : Nat
  masking_key : Option MaskingKey
deriving DecidableEq, Repr

/-- `Header::read` (src/ws/header.rs lines 93-188), over an explicit byte
stream.  Returns the decoded header together with the unconsumed rest of
the stream.  Bit tests on the two fixed header bytes are written
arithmetically (see the file header); the big-endian extended lengths
`(bytes[0] << 8) | bytes[1]` etc. are written as `*`/`+` of the
byte values (the or-ed bit ranges are disjoint). -/
def Header.read (input : List Nat) : Except WsError (Header × List Nat) :=
  match readExact 2 input with
  | .error e => .error e
  | .ok (hd, rest) =>
    let first := hd.getD 0 0
    let second := hd.getD 1 0
    let is_final := first / 128 % 2 == 1
    let extensions := (first / 64 % 2 == 1, first / 32 % 2 == 1, first / 16 % 2 == 1)
    match kindOfOpcode (first % 16) with
    | .error e => .error e
    | .ok kind =>
      let has_mask := second / 128 % 2 == 1
      let payload_len := second % 128
      -- control-frame invariant checks, before any further byte is read
      if kind.is_control ∧ 126 ≤ payload_len then .error .InvalidLength
      else if kind.is_control ∧ is_final = false then .error .InvalidDataFrame
      else
        -- the SmallVec sized for the extended-length and mask bytes
        let extLen := if payload_len == 126 then 2 else if payload_len == 127 then 8 else 0
        let maskLen := if has_mask then 4 else 0
        if extLen + maskLen == 0 then
          .ok ({ is_final := is_final, extensions := extensions, kind := kind,
                 payload_len := payload_len, masking_key := none }, rest)
        else
          match readExact (extLen + maskLen) rest with
          | .error e => .error e
          | .ok (ext, rest2) =>
            let start := if payload_len == 126 then 2 else if payload_len == 127 then 8 else 0
            let real_len :=
              if payload_len == 126 then
                ext.getD 0 0 * 256 + ext.getD 1 0
              else if payload_len == 127 then
                ext.getD 0 0 * 72057594037927936 + ext.getD 1 0 * 281474976710656 +
                ext.getD 2 0 * 1099511627776 + ext.getD 3 0 * 4294967296 +
                ext.getD 4 0 * 16777216 + ext.getD 5 0 * 65536 +
                ext.getD 6 0 * 256 + ext.getD 7 0
              else payload_len
            let masking_key :=
              if has_mask then
                some { k0 := ext.getD start 0, k1 := ext.getD (start + 1) 0,
                       k2 := ext.getD (start + 2) 0, k3 := ext.getD (start + 3) 0 }
              else none
            .ok ({ is_final := is_final, extensions := extensions, kind := kind,
                   payload_len := real_len, masking_key := masking_key }, rest2)

/-- `Header::bytes` (src/ws/header.rs lines 189-248): the used prefix of
the 14-byte scratch buffer (what `HeaderBytes::as_ref` exposes).
`u16::max_value()` is 65535; the big-endian length bytes
`(len >> k & 0xFF)` are written `len / 2^k % 256`. -/
def Header.bytes (h : Header) : List Nat :=
  let b0 := (if h.is_final then 128 else 0) + (if h.extensions.1 then 64 else 0) +
            (if h.extensions.2.1 then 32 else 0) + (if h.extensions.2.2 then 16 else 0) +
            h.kind.opcode
  let lenField := if 65535 < h.payload_len then 127
                  else if 125 < h.payload_len then 126
                  else h.payload_len
  let b1 := (if h.masking_key.isSome then 128 else 0) + lenField
  let lenBytes :=
    if 65535 < h.payload_len then
      [h.payload_len / 72057594037927936 % 256, h.payload_len / 281474976710656 % 256,
       h.payload_len / 1099511627776 % 256, h.payload_len / 4294967296 % 256,
       h.payload_len / 16777216 % 256, h.payload_len / 65536 % 256,
       h.payload_len / 256 % 256, h.payload_len % 256]
    else if 125 < h.payload_len then
      [h.payload_len / 256 % 256, h.payload_len % 256]
    else []
  let maskBytes := match h.masking_key with
    | some k => [k.k0, k.k1, k.k2, k.k3]
    | none => []
  b0 :: b1 :: (lenBytes ++ maskBytes)

/-- A header the Rust code can actually hold: `payload_len` fits in `u64`,
mask bytes fit in `u8`, and control kinds satisfy the control-frame
invariant (final, payload below 126). -/
def Header.valid (h : Header) : Prop :=
  h.payload_len < 18446744073709551616 ∧
  (match h.masking_key with
   | some k => k.k0 < 256 ∧ k.k1 < 256 ∧ k.k2 < 256 ∧ k.k3 < 256
   | none => True) ∧
  (h.kind.is_control = true → h.is_final = true ∧ h.payload_len < 126)

/-- Continuation-byte test `0x80..=0xBF` of UTF-8 validation. -/
def utf8Cont (b : Nat) : Bool := decide (128 ≤ b ∧ b ≤ 191)

/-- Model of `str::from_utf8` validity (`core::str` UTF-8 validation,
RFC 3629 table), used by `Owned::new`. -/
def validUtf8 : List Nat → Bool
  | [] => true
  | b :: rest =>
    if b ≤ 127 then validUtf8 rest
    else if 194 ≤ b ∧ b ≤ 223 then
      match rest with
      | c1 :: rest2 => utf8Cont c1 && validUtf8 rest2
      | [] => false
    else if 224 ≤ b ∧ b ≤ 239 then
      match rest with
      | c1 :: c2 :: rest2 =>
        (if b = 224 then decide (160 ≤ c1 ∧ c1 ≤ 191)
         else if b = 237 then decide (128 ≤ c1 ∧ c1 ≤ 159)
         else utf8Cont c1) && utf8Cont c2 && validUtf8 rest2
      | _ => false
    else if 240 ≤ b ∧ b ≤ 244 then
      match rest with
      | c1 :: c2 :: c3 :: rest2 =>
        (if b = 240 then decide (144 ≤ c1 ∧ c1 ≤ 191)
         else if b = 244 then decide (128 ≤ c1 ∧ c1 ≤ 143)
         else utf8Cont c1) && utf8Cont c2 && utf8Cont c3 && validUtf8 rest2
      | _ => false
    else false

/-- `ws::message::Owned` (src/ws/message.rs): a reassembled logical
message, `data` being the owned backing buffer. -/
structure Owned where
  kind : Kind
  data : List Nat
deriving DecidableEq, Repr

/-- `Owned::new` (src/ws/message.rs lines 41-60): kind-specific payload
validation at construction. -/
def Owned.new (kind : Kind) (data : List Nat) : Except WsError Owned :=
  match kind with
  | .Text =>
    if validUtf8 data then .ok { kind := kind, data := data }
    else .error .NonUtf8Text
  | .Close =>
    if 2 < data.length ∧ validUtf8 (data.drop 2) = false then .error .NonUtf8Text
    else .ok { kind := kind, data := data }
  | .Continuation => .error .InvalidDataFrame
  | _ => .ok { kind := kind, data := data }

/-- The frame-accumulation loop of `Owned::read` (src/ws/message.rs lines
66-102), on explicit fuel (the Rust loop has no fuel; it can run
unboundedly).  `h` is the current header, `payload` the accumulated
payload buffer (the `BytesMut`), `input` the remaining stream.  Note that
the `Continuation`/non-final arm of the source does NOT read a next
header: the loop continues with the same `h`.  This model reproduces
that behaviour verbatim. -/
def Owned.readLoop : Nat → Header → List Nat → List Nat → Except WsError (List Nat × List Nat)
  | 0, _, _, _ => .error .OutOfFuel
  | fuel + 1, h, payload, input =>
    match readExact h.payload_len input with
    | .error e => .error e
    | .ok (chunk, rest) =>
      -- mask removed from the just-read chunk (`payload[start..]`) only
      let chunk2 := match h.masking_key with
        | some key => key.apply chunk
        | none => chunk
      let payload2 := payload ++ chunk2
      match h.kind with
      | .Continuation =>
        if h.is_final then .ok (payload2, rest)
        else Owned.readLoop fuel h payload2 rest
      | .Text | .Binary =>
        if payload2.length ≠ h.payload_len then .error .InvalidDataFrame
        else if h.is_final then .ok (payload2, rest)
        else
          match Header.read rest with
          | .error e => .error e
          | .ok (h2, rest2) => Owned.readLoop fuel h2 payload2 rest2
      | .Close | .Ping | .Pong =>
        if h.is_final = false ∨ payload2.length ≠ h.payload_len then .error .InvalidDataFrame
        else .ok (payload2, rest)

/-- `Owned::read` (src/ws/message.rs lines 61-104): read the first header,
run the accumulation loop, then construct via `Owned::new` with the FIRST
frame's kind (`message_kind`). -/
def Owned.read (fuel : Nat) (input : List Nat) : Except WsError Owned :=
  match Header.read input with
  | .error e => .error e
  | .ok (h, rest) =>
    match Owned.readLoop fuel h [] rest with
    | .error e => .error e
    | .ok (data, _) => Owned.new h.kind data

/-- `ws::message::Message` (src/ws/message.rs).  Rust `&str` payloads are
their UTF-8 bytes; the `Close` payload is `(code, reason-bytes)`. -/
inductive WsMessage where
  | text (s : List Nat)
  | binary (b : List Nat)
  | close (c : Option (Nat × List Nat))
  | ping (b : List Nat)
  | pong (b : List Nat)
deriving DecidableEq, Repr

/-- The `Close` decode of `Owned::message`: fewer than 2 bytes is
`Close(None)`, otherwise big-endian code from the first two bytes and the
remainder as the reason (`""` when exactly 2 bytes — `List.drop 2` of a
2-element list is `[]`). -/
def closePayload (data : List Nat) : Option (Nat × List Nat) :=
  if data.length < 2 then none
  else some (data.getD 0 0 * 256 + data.getD 1 0, data.drop 2)

/-- `Owned::message` (src/ws/message.rs lines 108-132).  `none` models the
`unreachable!()` on `Continuation` (an `Owned` of that kind is never
constructed by `Owned::new`). -/
def Owned.message (o : Owned) : Option WsMessage :=
  match o.kind with
  | .Continuation => none
  | .Text => some (.text o.data)
  | .Binary => some (.binary o.data)
  | .Close => some (.close (closePayload o.data))
  | .Ping => some (.ping o.data)
  | .Pong => some (.pong o.data)

/-- `ws::message::Context`. -/
inductive WsContext where
  | client
  | server
deriving DecidableEq, Repr

/-- The header kind chosen for a message in `Message::write`. -/
def messageKind : WsMessage → Kind
  | .text _ => .Text
  | .binary _ => .Binary
  | .close _ => .Close
  | .ping _ => .Ping
  | .pong _ => .Pong

/-- The `len` computation at the top of `Message::write` (src/ws/message.rs
lines 152-159). -/
def messageLen : WsMessage → Nat
  | .text s => s.length
  | .binary b => b.length
  | .ping b => b.length
  | .pong b => b.length
  | .close (some (_, s)) => s.length + 2
  | .close none => 0

/-- The payload bytes assembled by `Message::write` before masking:
for `Close(Some)` the 2-byte big-endian code (`c >> 8 & 0xff`, `c & 0xff`)
followed by the reason. -/
def messageBody : WsMessage → List Nat
  | .text s => s
  | .binary b => b
  | .ping b => b
  | .pong b => b
  | .close (some (c, s)) => [c / 256 % 256, c % 256] ++ s
  | .close none => []

/-- `Message::write` (src/ws/message.rs lines 151-221), as the byte
sequence written to the stream.  A client context masks with the freshly
generated masking key (passed here as the explicit `mask` argument
standing for `MaskingKey::new()`); if `len == 0` nothing at all is
written and the call returns `Ok(())`. -/
def WsMessage.write (m : WsMessage) (ctx : WsContext) (mask : MaskingKey) : List Nat :=
  let len := messageLen m
  if 0 < len then
    let mk := match ctx with
      | .client => some mask
      | .server => none
    let header : Header :=
      { is_final := true, extensions := (false, false, false), kind := messageKind m,
        payload_len := len, masking_key := mk }
    let payload := match mk with
      | some key => key.apply (messageBody m)
      | none => messageBody m
    header.bytes ++ payload
  else []

/-- `MAX_REQUEST_KEY_LEN` (src/ws.rs line 23): `(16 / 3) * 4 + 4`. -/
def MAX_REQUEST_KEY_LEN : Nat := 16 / 3 * 4 + 4

/-- One character of the `base64::STANDARD` alphabet
(`A-Z`, `a-z`, `0-9`, `+`, `/`), as its ASCII byte. -/
def b64char (i : Nat) : Nat :=
  if i < 26 then 65 + i
  else if i < 52 then 97 + (i - 26)
  else if i < 62 then 48 + (i - 52)
  else if i = 62 then 43
  else 47

/-- `base64::encode_config_slice` with the `STANDARD` (padded) config:
3-byte groups become 4 alphabet characters; a trailing group of 2 or 1
bytes is padded with one or two `'='` (ASCII 61). -/
def base64Encode : List Nat → List Nat
  | b0 :: b1 :: b2 :: rest =>
    b64char (b0 / 4) :: b64char (b0 % 4 * 16 + b1 / 16) ::
    b64char (b1 % 16 * 4 + b2 / 64) :: b64char (b2 % 64) :: base64Encode rest
  | [b0, b1] => [b64char (b0 / 4), b64char (b0 % 4 * 16 + b1 / 16), b64char (b1 % 16 * 4), 61]
  | [b0] => [b64char (b0 / 4), b64char (b0 % 4 * 16), 61, 61]
  | [] => []

/-- `ws::RequestKey`: a fixed `[u8; MAX_REQUEST_KEY_LEN]` buffer plus the
used length. -/
structure RequestKey where
  bytes : List Nat
  size : Nat
deriving DecidableEq, Repr

/-- `RequestKey::generate` (src/ws.rs lines 41-51), with the 16 `OsRng`
bytes passed in explicitly: base64-encode them into the zero-initialised
fixed buffer, recording the number of bytes written. -/
def RequestKey.generate (random : List Nat) : RequestKey :=
  let encoded := base64Encode random
  { bytes := encoded ++ List.replicate (MAX_REQUEST_KEY_LEN - encoded.length) 0,
    size := encoded.length }

/-- `RequestKey`'s `AsRef` impl: the used-length prefix of the buffer
(the text sent as the `Sec-WebSocket-Key` header). -/
def RequestKey.asRef (k : RequestKey) : List Nat :=
  k.bytes.take k.size

/-- The session-local state of `Discord` (src/discord.rs lines 210-223)
that the gateway loop reads and writes: `token`, `session_id`,
`last_seq`, and the heartbeat-ack flag (`ack: Option<()>`, modelled as
`Bool`, `true` = `Some(())`).  The HTTP client, transport halves, prebuf
and timer are the surrounding IO machinery and are not part of the
state the claims quantify over. -/
structure Session where
  token : String
  session_id : String
  last_seq : Nat
  ack : Bool
deriving DecidableEq, Repr

/-- One event delivered to the `select_biased!` of `Discord::next`
(src/discord.rs lines 400-443): a heartbeat-timer tick, or a completed
websocket message.  A `Text` frame arrives with its JSON already parsed
into the `WsPayloadUnknownOp` fields (`op: i32`, `s: Option<u64>`,
`t: Option<String>`; JSON parsing itself is serde, external to the
core); a `Close` frame arrives with its raw payload bytes; `other`
stands for any `Binary`/`Ping`/`Pong` message. -/
inductive GatewayEvent where
  | tick
  | text (op : Int) (s : Option Nat) (t : Option String)
  | close (data : List Nat)
  | other
deriving DecidableEq, Repr

/-- A payload the session writes to the gateway while handling an event:
the op-1 heartbeat carrying `last_seq` (src/discord.rs lines 403-412), or
the op-6 resume carrying `(token, session_id, seq)` sent by
`Discord::reconnect` (src/discord.rs lines 302-312). -/
inductive SentPayload where
  | heartbeat (seq : Nat)
  | resume (token : String) (session_id : String) (seq : Nat)
deriving DecidableEq, Repr

/-- What one handled event produces besides the successor state:
nothing (`quiet`, the loop keeps going), a written payload (`sent`), or a
MESSAGE_CREATE dispatch returned to the caller (`delivered`; the decoded
message body is serde output and not modelled further). -/
inductive StepOut where
  | quiet
  | sent (p : SentPayload)
  | delivered
deriving DecidableEq, Repr

/-- The two `error::Error` variants the gateway loop itself raises:
`NoAck` and `UnexpectedWebsocketResponse`. -/
inductive DError where
  | NoAck
  | UnexpectedWs
deriving DecidableEq, Repr

/-- One iteration of the event handling in `Discord::next`
(src/discord.rs lines 400-443), plus the resume send of
`Discord::reconnect` for the close-1001 case (the re-handshake IO of
`reconnect` replaces the transport but leaves `token`, `session_id`,
`last_seq` and `ack` untouched):
* timer tick: `ack.take()` — if an ack was pending send nothing and fail
  with `NoAck`, otherwise send the op-1 heartbeat with `last_seq` and
  leave the ack cleared;
* Text payload: update `last_seq` from `s` if present, set the ack flag
  on op 11, and deliver only `t == Some("MESSAGE_CREATE")`;
* Close frame decoding (via `Owned::message`) to code 1001: run the
  resume path; any other close, or a non-Text non-Close message, is
  `UnexpectedWebsocketResponse`. -/
def step (st : Session) (ev : GatewayEvent) : Except DError (Session × StepOut) :=
  match ev with
  | .tick =>
    if st.ack then .ok ({ st with ack := false }, .sent (.heartbeat st.last_seq))
    else .error .NoAck
  | .text op s t =>
    let st1 := { st with last_seq := match s with | some v => v | none => st.last_seq }
    let st2 := if op == 11 then { st1 with ack := true } else st1
    if t == some "MESSAGE_CREATE" then .ok (st2, .delivered)
    else .ok (st2, .quiet)
  | .close data =>
    match closePayload data with
    | some (c, _) =>
      if c = 1001 then .ok (st, .sent (.resume st.token st.session_id st.last_seq))
      else .error .UnexpectedWs
    | none => .error .UnexpectedWs
  | .other => .error .UnexpectedWs

/-- The state after handling one event (identity on error, where the Rust
loop returns and the state is dropped). -/
def nextState (st : Session) (ev : GatewayEvent) : Session :=
  match step st ev with
  | .ok (st2, _) => st2
  | .error _ => st

/-- Fold a list of Text-payload events (as parsed `(op, s, t)` triples)
through the session state. -/
def foldTexts (st : Session) (evs : List (Int × Option Nat × Option String)) : Session :=
  evs.foldl (fun s e => nextState s (.text e.1 e.2.1 e.2.2)) st

/-- A history item, reduced to the only field pagination uses: its
message id (`Message::message_id`; ids are opaque tokens, modelled as
`Nat`). -/
structure Msg where
  id : Nat
deriving DecidableEq, Repr

/-- The pagination state of `ChannelMessages` (src/discord.rs lines
125-134): the buffered page iterator, the `before` cursor, and the
remaining item budget.  The HTTP client/auth/URI fields and the
rate-limit `Delay` (which only spaces requests in time) are the IO
machinery around it; the GET request itself is abstracted as the
`server` function argument of `CM.next`. -/
structure CM where
  next_res : Option (List Msg)
  next_msg_id : Option Nat
  limit : Option Nat
deriving DecidableEq, Repr

/-- The `limit` computation of `ChannelMessages::next` (src/discord.rs
lines 150-158): `Some(0)` means exhausted (`none` here), otherwise this
page's size is `min(n, 100)` and the budget drops by 100
(`saturating_sub`, which is plain `Nat` subtraction). -/
def takeLimit : Option Nat → Option (Nat × Option Nat)
  | some 0 => none
  | some n => some (min n 100, some (n - 100))
  | none => some (100, none)

/-- The `loop` of `ChannelMessages::next` (src/discord.rs lines 136-186)
on explicit fuel.  `server l before` abstracts the authenticated GET for
one page (`?limit=l&before=cursor`); the response is the decoded item
list.  Serving pops the buffered iterator and records the served id as
the new cursor; fetching takes the cursor (leaving it empty), requests a
page, and zeroes the budget when the page is short.  Fuel 4 bounds the
loop: serve / refetch / drain-empty / exhausted. -/
def nextFuel (server : Nat → Option Nat → List Msg) : Nat → CM → Option Msg × CM
  | 0, cm => (none, cm)
  | fuel + 1, cm =>
    match cm.next_res with
    | some (m :: rest) =>
      (some m, { cm with next_res := some rest, next_msg_id := some m.id })
    | some [] => nextFuel server fuel { cm with next_res := none }
    | none =>
      match takeLimit cm.limit with
      | none => (none, cm)
      | some (l, limit2) =>
        let page := server l cm.next_msg_id
        nextFuel server fuel
          { next_res := some page, next_msg_id := none,
            limit := if page.length < l then some 0 else limit2 }

/-- `ChannelMessages::next`: one call of the paginated reader.  Returns
the yielded item (or `none` = end of feed) and the successor state. -/
def CM.next (server : Nat → Option Nat → List Msg) (cm : CM) : Option Msg × CM :=
  nextFuel server 4 cm

/-- Drive `CM.next` until it yields `none` (or fuel runs out), collecting
the yielded items in order and returning the final state. -/
def runCM (server : Nat → Option Nat → List Msg) : Nat → CM → List Msg × CM
  | 0, cm => ([], cm)
  | fuel + 1, cm =>
    match CM.next server cm with
    | (some m, cm2) =>
      let r := runCM server fuel cm2
      (m :: r.1, r.2)
    | (none, cm2) => ([], cm2)

/-- The suffix of the feed strictly after the item with the given id. -/
def afterId : List Msg → Nat → List Msg
  | [], _ => []
  | m :: rest, i => if m.id = i then rest else afterId rest i

/-- Modelled from the spec: the external paginated REST endpoint of the
History Reader scenario ("a server that returns exactly `limit` items
per page until a final short page").  The server owns a fixed feed `L`
(newest first); a request for `l` items before cursor `c` returns the
next `l` items of the suffix after `c` (all of `L` when there is no
cursor), hence exactly `l` items per page until the feed runs short. -/
def serverOf (L : List Msg) (l : Nat) (before : Option Nat) : List Msg :=
  match before with
  | none => L.take l
  | some i => (afterId L i).take l

/-- The items a budget allows: all of them when unbounded, the first `n`
when the budget is `some n`. -/
def budgetTake (lim : Option Nat) (l : List Msg) : List Msg :=
  match lim with
  | some n => l.take n
  | none => l

/-- The cursor after serving `vec` on top of a previous cursor `c`: the
id of the last served item, or `c` unchanged when `vec` is empty. -/
def lastCursor (vec : List Msg) (c : Option Nat) : Option Nat :=
  match vec.getLast? with
  | some m => some m.id
  | none => c

/-! ## Helper lemmas -/

theorem readExact_two (b0 b1 : Nat) (rest : List Nat) :
    readExact 2 (b0 :: b1 :: rest) = .ok ([b0, b1], rest) := rfl

theorem readExact_append : ∀ (xs ys : List Nat), readExact xs.length (xs ++ ys) = .ok (xs, ys)
  | [], _ => rfl
  | x :: xs, ys => by
    simp only [List.length_cons, List.cons_append, readExact, List.append_eq,
      readExact_append xs ys]

theorem base64Encode_length : ∀ l : List Nat, (base64Encode l).length = (l.length + 2) / 3 * 4
  | [] => by simp [base64Encode]
  | [_] => by simp [base64Encode]
  | [_, _] => by simp [base64Encode]
  | _ :: _ :: _ :: rest => by
    simp only [base64Encode, List.length_cons, base64Encode_length rest]
    omega

theorem nextState_text_ack (st : Session) (op : Int) (s : Option Nat) (t : Option String)
    (h : op ≠ 11) : (nextState st (.text op s t)).ack = st.ack := by
  have h2 : (op == 11) = false := by simpa using h
  cases hmc : (t == some "MESSAGE_CREATE") <;>
    simp [nextState, step, h2, hmc]

theorem foldTexts_ack_false (evs : List (Int × Option Nat × Option String)) :
    ∀ st : Session, st.ack = false → (∀ e ∈ evs, e.1 ≠ 11) →
      (foldTexts st evs).ack = false := by
  induction evs with
  | nil => intro st h _; simpa [foldTexts] using h
  | cons e rest ih =>
    intro st h hno
    have he : e.1 ≠ 11 := hno e (List.mem_cons_self e rest)
    have hstep : (nextState st (.text e.1 e.2.1 e.2.2)).ack = false :=
      (nextState_text_ack st e.1 e.2.1 e.2.2 he).trans h
    have hrest : ∀ x ∈ rest, x.1 ≠ 11 := fun x hx => hno x (List.mem_cons_of_mem e hx)
    simpa [foldTexts] using ih (nextState st (.text e.1 e.2.1 e.2.2)) hstep hrest

/-! ## Claims -/

/-- Claim C10: a message whose payload length is zero — `Text` of the
empty string, an empty `Binary`/`Ping`/`Pong`, and `Close(None)` — makes
`Message::write` write no bytes at all (not even a header) and return
success, in either context and for any masking key. -/
theorem C10_zero_length_write (ctx : WsContext) (mask : MaskingKey) :
    WsMessage.write (.text []) ctx mask = [] ∧
    WsMessage.write (.binary []) ctx mask = [] ∧
    WsMessage.write (.ping []) ctx mask = [] ∧
    WsMessage.write (.pong []) ctx mask = [] ∧
    WsMessage.write (.close none) ctx mask = [] := by
  refine ⟨?_, ?_, ?_, ?_, ?_⟩ <;> rfl

/-- Claim C7: constructing a `Text` message (`Owned::new`) fails with
`NonUtf8Text` exactly when the payload is not valid UTF-8; with a valid
payload it succeeds and `Owned::message` exposes it as `Text`. -/
theorem C7_text_utf8 (data : List Nat) :
    (validUtf8 data = false → Owned.new .Text data = .error .NonUtf8Text) ∧
    (validUtf8 data = true →
      Owned.new .Text data = .ok { kind := .Text, data := data } ∧
      Owned.message { kind := .Text, data := data } = some (.text data)) := by
  constructor
  · intro h; simp [Owned.new, h]
  · intro h; exact ⟨by simp [Owned.new, h], rfl⟩

theorem C7_text_utf8_witness :
    Owned.new .Text [255] = .error .NonUtf8Text ∧
    Owned.new .Text [104, 105] = .ok { kind := .Text, data := [104, 105] } :=
  ⟨(C7_text_utf8 [255]).1 (by decide),
   ((C7_text_utf8 [104, 105]).2 (by decide)).1⟩

/-- Claim C9 (counterexample): the encoded text `RequestKey::generate`
produces for 16 input bytes is not 22 characters long (base64 with the
padded STANDARD config yields 24 characters for 16 bytes). -/
theorem C9_counterexample :
    (RequestKey.generate (List.replicate 16 0)).asRef.length ≠ 22 := by
  decide

/-- Claim C9 (amended): `RequestKey::generate` base64-encodes 16 random
bytes into the fixed-capacity buffer, and the encoded text exposed by
`as_ref` is exactly 24 characters long (22 base64 digits plus 2 `'='`
padding) — which is also exactly the buffer capacity
`MAX_REQUEST_KEY_LEN`. -/
theorem C9_request_key_len (random : List Nat) (h : random.length = 16) :
    (RequestKey.generate random).asRef.length = 24 ∧ MAX_REQUEST_KEY_LEN = 24 := by
  have hlen : (base64Encode random).length = 24 := by
    rw [base64Encode_length, h]
  refine ⟨?_, rfl⟩
  simp [RequestKey.generate, RequestKey.asRef, hlen, MAX_REQUEST_KEY_LEN]

theorem C9_request_key_len_witness :
    (RequestKey.generate (List.replicate 16 0)).asRef.length = 24 :=
  (C9_request_key_len (List.replicate 16 0) (by simp)).1

/-- Claim C8 (counterexample): `last_seq` is not monotonically
non-decreasing: processing a payload carrying sequence number 0 from a
state with `last_seq = 1` leaves `last_seq = 0 < 1`. -/
theorem C8_counterexample :
    (nextState { token := "t", session_id := "s", last_seq := 1, ack := true }
        (.text 0 (some 0) none)).last_seq <
      ({ token := "t", session_id := "s", last_seq := 1, ack := true } : Session).last_seq := by
  decide

/-- Claim C8 (amended): `last_seq` is assigned, not clamped: processing a
payload carrying sequence number `v` sets `last_seq` to exactly `v`
(payloads without one leave it unchanged), so `last_seq` is
non-decreasing precisely when the carried sequence numbers are at least
the current value. -/
theorem C8_last_seq_assign (st : Session) (op : Int) (t : Option String) (v : Nat) :
    (nextState st (.text op (some v) t)).last_seq = v ∧
    (nextState st (.text op none t)).last_seq = st.last_seq ∧
    (st.last_seq ≤ v → st.last_seq ≤ (nextState st (.text op (some v) t)).last_seq) := by
  have h1 : (nextState st (.text op (some v) t)).last_seq = v := by
    cases h11 : (op == 11) <;> cases hmc : (t == some "MESSAGE_CREATE") <;>
      simp [nextState, step, h11, hmc]
  refine ⟨h1, ?_, fun h => le_of_le_of_eq h h1.symm⟩
  cases h11 : (op == 11) <;> cases hmc : (t == some "MESSAGE_CREATE") <;>
    simp [nextState, step, h11, hmc]

theorem C8_last_seq_assign_witness :
    (nextState { token := "t", session_id := "s", last_seq := 3, ack := true }
        (.text 0 (some 5) none)).last_seq = 5 ∧
    ({ token := "t", session_id := "s", last_seq := 3, ack := true } : Session).last_seq ≤
      (nextState { token := "t", session_id := "s", last_seq := 3, ack := true }
        (.text 0 (some 5) none)).last_seq :=
  ⟨(C8_last_seq_assign { token := "t", session_id := "s", last_seq := 3, ack := true }
      0 none 5).1,
   (C8_last_seq_assign { token := "t", session_id := "s", last_seq := 3, ack := true }
      0 none 5).2.2 (by decide)⟩

/-- Claim C5: a decoded Close message with 2-byte code 1001 does not make
`Discord::next` fail — it runs the resume path, which sends the op-6
resume payload carrying `(token, session_id, last_seq)` and leaves the
session state (in particular `session_id` and `last_seq`) unchanged;
a Close with any other decoded code (or no code) returns the
`UnexpectedWebsocketResponse` error instead. -/
theorem C5_close1001_resume (st : Session) (data : List Nat) :
    ((closePayload data).map Prod.fst = some 1001 →
      step st (.close data) = .ok (st, .sent (.resume st.token st.session_id st.last_seq))) ∧
    ((closePayload data).map Prod.fst ≠ some 1001 →
      step st (.close data) = .error .UnexpectedWs) := by
  rcases hc : closePayload data with _ | ⟨c, r⟩
  · refine ⟨fun h => absurd h (by simp), fun _ => ?_⟩
    simp [step, hc]
  · by_cases h1001 : c = 1001
    · subst h1001
      refine ⟨fun _ => ?_, fun h => (h (by simp)).elim⟩
      simp [step, hc]
    · refine ⟨fun h => ?_, fun _ => ?_⟩
      · simp only [Option.map_some] at h
        exact absurd (Option.some_injective _ h) h1001
      · simp [step, hc, h1001]

theorem C5_close1001_resume_witness :
    step { token := "t", session_id := "s", last_seq := 4, ack := true } (.close [3, 233]) =
      .ok ({ token := "t", session_id := "s", last_seq := 4, ack := true },
           .sent (.resume "t" "s" 4)) ∧
    step { token := "t", session_id := "s", last_seq := 4, ack := true } (.close [3, 232]) =
      .error .UnexpectedWs :=
  ⟨(C5_close1001_resume { token := "t", session_id := "s", last_seq := 4, ack := true }
      [3, 233]).1 (by decide),
   (C5_close1001_resume { token := "t", session_id := "s", last_seq := 4, ack := true }
      [3, 232]).2 (by decide)⟩

/-- Claim C4: in the gateway loop, a heartbeat tick handled while the
previous heartbeat is acknowledged sends the op-1 heartbeat payload
carrying `last_seq` and marks the ack as pending; if a second tick is
handled after any number of processed payloads none of which is the
op-11 acknowledgment, that second tick fails with the fatal `NoAck`. -/
theorem C4_heartbeat_noack (st : Session) (hack : st.ack = true)
    (evs : List (Int × Option Nat × Option String)) (hno : ∀ e ∈ evs, e.1 ≠ 11) :
    step st .tick = .ok ({ st with ack := false }, .sent (.heartbeat st.last_seq)) ∧
    step (foldTexts { st with ack := false } evs) .tick = .error .NoAck := by
  refine ⟨by simp [step, hack], ?_⟩
  have h : (foldTexts { st with ack := false } evs).ack = false :=
    foldTexts_ack_false evs { st with ack := false } rfl hno
  simp [step, h]

theorem C4_heartbeat_noack_witness :
    step { token := "t", session_id := "s", last_seq := 7, ack := true } .tick =
      .ok ({ token := "t", session_id := "s", last_seq := 7, ack := false },
           .sent (.heartbeat 7)) ∧
    step (foldTexts { token := "t", session_id := "s", last_seq := 7, ack := false }
        [(0, some 9, none)]) .tick = .error .NoAck :=
  C4_heartbeat_noack { token := "t", session_id := "s", last_seq := 7, ack := true } rfl
    [(0, some 9, none)]
    (by intro e he; simp only [List.mem_singleton] at he; subst he; decide)

/-- Claim C3: a first frame header with a control kind (Close/Ping/Pong
opcode) whose 7-bit length field is at least 126, or which is non-final,
makes `Header::read` fail — `InvalidLength` for the length violation,
`InvalidDataFrame` for the non-final violation — and the error depends
only on the two fixed header bytes: the rest of the stream (where any
payload would sit) is universally quantified and untouched. -/
theorem C3_control_reject (b0 b1 : Nat) (rest : List Nat) (h0 : b0 < 256) (h1 : b1 < 256)
    (hk : b0 % 16 = 8 ∨ b0 % 16 = 9 ∨ b0 % 16 = 10) :
    (126 ≤ b1 % 128 → Header.read (b0 :: b1 :: rest) = .error .InvalidLength) ∧
    (b1 % 128 < 126 → b0 / 128 % 2 = 0 →
      Header.read (b0 :: b1 :: rest) = .error .InvalidDataFrame) := by
  have hread := readExact_two b0 b1 rest
  constructor
  · intro h126
    simp only [Header.read, hread]
    rcases hk with hk | hk | hk <;>
      simp [hk, kindOfOpcode, List.getD, Kind.is_control, h126]
  · intro h126 hfin
    simp only [Header.read, hread]
    rcases hk with hk | hk | hk <;>
      simp [hk, kindOfOpcode, List.getD, Kind.is_control, hfin] <;> omega

theorem C3_control_reject_witness :
    Header.read (136 :: 126 :: [0, 0]) = .error .InvalidLength ∧
    Header.read (8 :: 0 :: []) = .error .InvalidDataFrame :=
  ⟨(C3_control_reject 136 126 [0, 0] (by decide) (by decide) (by decide)).1 (by decide),
   (C3_control_reject 8 0 [] (by decide) (by decide) (by decide)).2 (by decide) (by decide)⟩

/-- Claim C2 (code evaluated at the failing input): for the fragmented
message "Binary non-final `[1]`, Continuation non-final `[2]`,
Continuation final `[3]`" (wire bytes below), `Owned::read` does NOT
return the reassembled `Binary [1, 2, 3]` the claim requires: the
Continuation/non-final arm of the loop never reads the next frame
header, so the stale header's `payload_len` keeps being consumed until
the stream ends in an unexpected-EOF I/O error. -/
theorem C2_continuation_bug :
    Owned.read 10 [2, 1, 1, 0, 1, 2, 128, 1, 3] = .error .IoErr ∧
    Owned.read 10 [2, 1, 1, 0, 1, 2, 128, 1, 3] ≠
      .ok { kind := .Binary, data := [1, 2, 3] } := by
  have h : Owned.read 10 [2, 1, 1, 0, 1, 2, 128, 1, 3] = .error .IoErr := rfl
  exact ⟨h, by rw [h]; intro hbad; exact Except.noConfusion hbad⟩

/-! ## Header round-trip (C1) -/

theorem opcode_lt (k : Kind) : k.opcode < 16 := by cases k <;> decide

theorem kindOfOpcode_opcode (k : Kind) : kindOfOpcode k.opcode = .ok k := by
  cases k <;> rfl

theorem byte0_decode (fin e0 e1 e2 : Bool) (op : Nat) (hop : op < 16) :
    (((if fin then 128 else 0) + (if e0 then 64 else 0) + (if e1 then 32 else 0) +
        (if e2 then 16 else 0) + op) / 128 % 2 == 1) = fin ∧
    (((if fin then 128 else 0) + (if e0 then 64 else 0) + (if e1 then 32 else 0) +
        (if e2 then 16 else 0) + op) / 64 % 2 == 1) = e0 ∧
    (((if fin then 128 else 0) + (if e0 then 64 else 0) + (if e1 then 32 else 0) +
        (if e2 then 16 else 0) + op) / 32 % 2 == 1) = e1 ∧
    (((if fin then 128 else 0) + (if e0 then 64 else 0) + (if e1 then 32 else 0) +
        (if e2 then 16 else 0) + op) / 16 % 2 == 1) = e2 ∧
    ((if fin then 128 else 0) + (if e0 then 64 else 0) + (if e1 then 32 else 0) +
        (if e2 then 16 else 0) + op) % 16 = op := by
  cases fin <;> cases e0 <;> cases e1 <;> cases e2 <;>
    refine ⟨?_, ?_, ?_, ?_, ?_⟩ <;>
      simp only [if_true, if_false, beq_iff_eq, beq_eq_false_iff_ne, ne_eq,
        Bool.false_eq_true, Bool.true_eq_false, iff_false, iff_true, eq_iff_iff] <;>
      omega

/-- Claim C1: decoding (`Header::read`) the exact byte sequence produced
by encoding (`Header::bytes`) a valid header returns the header unchanged
— same final flag, reserved bits, kind, payload length (across the
inline / 2-byte / 8-byte encodings) and masking key — consuming exactly
the encoded bytes (the appended `rest` of the stream is returned
untouched). -/
theorem C1_header_roundtrip (h : Header) (hv : h.valid) (rest : List Nat) :
    Header.read (h.bytes ++ rest) = .ok (h, rest) := by
  obtain ⟨fin, ⟨e0, e1, e2⟩, kind, n, mk⟩ := h
  obtain ⟨hn64, -, hctrl⟩ := hv
  dsimp only at hn64 hctrl
  have hop := opcode_lt kind
  obtain ⟨hf, he0, he1, he2, hopeq⟩ := byte0_decode fin e0 e1 e2 kind.opcode hop
  rcases mk with _ | ⟨m0, m1, m2, m3⟩
  · by_cases h65 : 65535 < n
    · -- no mask, 8-byte extended length
      have hco : kind.is_control = false := by
        cases hco : kind.is_control
        · rfl
        · exact absurd (hctrl hco).2 (by omega)
      have hre := readExact_append
        [n / 72057594037927936 % 256, n / 281474976710656 % 256, n / 1099511627776 % 256,
         n / 4294967296 % 256, n / 16777216 % 256, n / 65536 % 256, n / 256 % 256, n % 256] rest
      simp at hre
      simp [Header.read, Header.bytes, readExact_two, hre, hf, he0, he1, he2, hopeq,
        kindOfOpcode_opcode, hco, h65, Header.mk.injEq]
      omega
    · by_cases h125 : 125 < n
      · -- no mask, 2-byte extended length
        have hco : kind.is_control = false := by
          cases hco : kind.is_control
          · rfl
          · exact absurd (hctrl hco).2 (by omega)
        have hre := readExact_append [n / 256 % 256, n % 256] rest
        simp at hre
        simp [Header.read, Header.bytes, readExact_two, hre, hf, he0, he1, he2, hopeq,
          kindOfOpcode_opcode, hco, h65, h125, Header.mk.injEq]
        omega
      · -- no mask, inline length
        have hm : n % 128 = n := by omega
        have hnd : n / 128 = 0 := by omega
        have h126 : (n == 126) = false := by simp; omega
        have h127 : (n == 127) = false := by simp; omega
        cases hco : kind.is_control
        · simp [Header.read, Header.bytes, readExact_two, hf, he0, he1, he2, hopeq,
            kindOfOpcode_opcode, hco, h65, h125, hm, hnd, h126, h127, Header.mk.injEq]
        · obtain ⟨hfin, hlt⟩ := hctrl hco
          subst hfin
          simp at hf he0 he1 he2 hopeq
          have h126n : ¬126 ≤ n := by omega
          simp [Header.read, Header.bytes, readExact_two, hf, he0, he1, he2, hopeq,
            kindOfOpcode_opcode, hco, h65, h125, hm, hnd, h126, h127, h126n,
            Header.mk.injEq]
  · by_cases h65 : 65535 < n
    · -- masked, 8-byte extended length
      have hco : kind.is_control = false := by
        cases hco : kind.is_control
        · rfl
        · exact absurd (hctrl hco).2 (by omega)
      have hre := readExact_append
        [n / 72057594037927936 % 256, n / 281474976710656 % 256, n / 1099511627776 % 256,
         n / 4294967296 % 256, n / 16777216 % 256, n / 65536 % 256, n / 256 % 256, n % 256,
         m0, m1, m2, m3] rest
      simp at hre
      simp [Header.read, Header.bytes, readExact_two, hre, hf, he0, he1, he2, hopeq,
        kindOfOpcode_opcode, hco, h65, Header.mk.injEq]
      omega
    · by_cases h125 : 125 < n
      · -- masked, 2-byte extended length
        have hco : kind.is_control = false := by
          cases hco : kind.is_control
          · rfl
          · exact absurd (hctrl hco).2 (by omega)
        have hre := readExact_append [n / 256 % 256, n % 256, m0, m1, m2, m3] rest
        simp at hre
        simp [Header.read, Header.bytes, readExact_two, hre, hf, he0, he1, he2, hopeq,
          kindOfOpcode_opcode, hco, h65, h125, Header.mk.injEq]
        omega
      · -- masked, inline length
        have hm : n % 128 = n := by omega
        have hnd : n / 128 = 0 := by omega
        have h126 : (n == 126) = false := by simp; omega
        have h127 : (n == 127) = false := by simp; omega
        have hre := readExact_append [m0, m1, m2, m3] rest
        simp at hre
        cases hco : kind.is_control
        · simp [Header.read, Header.bytes, readExact_two, hre, hf, he0, he1, he2, hopeq,
            kindOfOpcode_opcode, hco, h65, h125, hm, hnd, h126, h127, Header.mk.injEq]
        · obtain ⟨hfin, hlt⟩ := hctrl hco
          subst hfin
          simp at hf he0 he1 he2 hopeq
          have h126n : ¬126 ≤ n := by omega
          simp [Header.read, Header.bytes, readExact_two, hre, hf, he0, he1, he2, hopeq,
            kindOfOpcode_opcode, hco, h65, h125, hm, hnd, h126, h127, h126n,
            Header.mk.injEq]

theorem C1_header_roundtrip_witness :
    Header.read
        (Header.bytes
            { is_final := true, extensions := (false, true, false), kind := .Close,
              payload_len := 5, masking_key := some { k0 := 9, k1 := 8, k2 := 7, k3 := 6 } }
          ++ [42]) =
      .ok ({ is_final := true, extensions := (false, true, false), kind := .Close,
             payload_len := 5, masking_key := some { k0 := 9, k1 := 8, k2 := 7, k3 := 6 } },
           [42]) :=
  C1_header_roundtrip
    { is_final := true, extensions := (false, true, false), kind := .Close,
      payload_len := 5, masking_key := some { k0 := 9, k1 := 8, k2 := 7, k3 := 6 } }
    (by refine ⟨by norm_num, ⟨by norm_num, by norm_num, by norm_num, by norm_num⟩, ?_⟩
        intro _
        exact ⟨rfl, by norm_num⟩)
    [42]

/-! ## History reader (C6) -/

theorem nextFuel_succ (server : Nat → Option Nat → List Msg) (fuel : Nat) (cm : CM) :
    nextFuel server (fuel + 1) cm =
      match cm.next_res with
      | some (m :: rest) =>
        (some m, { cm with next_res := some rest, next_msg_id := some m.id })
      | some [] => nextFuel server fuel { cm with next_res := none }
      | none =>
        match takeLimit cm.limit with
        | none => (none, cm)
        | some (l, limit2) =>
          let page := server l cm.next_msg_id
          nextFuel server fuel
            { next_res := some page, next_msg_id := none,
              limit := if page.length < l then some 0 else limit2 } := rfl

theorem takeLimit_pos {lim : Option Nat} {l : Nat} {lim2 : Option Nat}
    (h : takeLimit lim = some (l, lim2)) : 0 < l := by
  rcases lim with _ | n
  · simp [takeLimit] at h
    omega
  · rcases n with _ | n
    · simp [takeLimit] at h
    · simp [takeLimit] at h
      omega

theorem CM_next_cons (sv : Nat → Option Nat → List Msg) (m : Msg) (rest : List Msg)
    (c : Option Nat) (lim : Option Nat) :
    CM.next sv ⟨some (m :: rest), c, lim⟩ = (some m, ⟨some rest, some m.id, lim⟩) := rfl

theorem CM_next_zero (sv : Nat → Option Nat → List Msg) (c : Option Nat) :
    CM.next sv ⟨none, c, some 0⟩ = (none, ⟨none, c, some 0⟩) := rfl

theorem CM_next_fetch_nil (sv : Nat → Option Nat → List Msg) (c : Option Nat)
    (lim : Option Nat) (l : Nat) (lim2 : Option Nat)
    (ht : takeLimit lim = some (l, lim2)) (hp : sv l c = []) :
    CM.next sv ⟨none, c, lim⟩ = (none, ⟨none, none, some 0⟩) := by
  have hl : 0 < l := takeLimit_pos ht
  show nextFuel sv (3 + 1) ⟨none, c, lim⟩ = _
  rw [nextFuel_succ]
  dsimp only
  rw [ht]
  dsimp only
  rw [hp]
  simp only [List.length_nil]
  rw [if_pos hl]
  rfl

theorem CM_next_fetch_cons (sv : Nat → Option Nat → List Msg) (c : Option Nat)
    (lim : Option Nat) (l : Nat) (lim2 : Option Nat) (m : Msg) (ms : List Msg)
    (ht : takeLimit lim = some (l, lim2)) (hp : sv l c = m :: ms) :
    CM.next sv ⟨none, c, lim⟩ =
      (some m, ⟨some ms, some m.id, if ms.length + 1 < l then some 0 else lim2⟩) := by
  show nextFuel sv (3 + 1) ⟨none, c, lim⟩ = _
  rw [nextFuel_succ]
  dsimp only
  rw [ht]
  dsimp only
  rw [hp]
  simp only [List.length_cons]
  rw [show (3 : Nat) = 2 + 1 from rfl, nextFuel_succ]

theorem nextFuel_none_34 (sv : Nat → Option Nat → List Msg) (c : Option Nat)
    (lim : Option Nat) :
    nextFuel sv 3 ⟨none, c, lim⟩ = nextFuel sv 4 ⟨none, c, lim⟩ := by
  rcases hTL : takeLimit lim with _ | ⟨l, lim2⟩
  · have h3 : nextFuel sv 3 ⟨none, c, lim⟩ = (none, ⟨none, c, lim⟩) := by
      show nextFuel sv (2 + 1) ⟨none, c, lim⟩ = _
      rw [nextFuel_succ]
      dsimp only
      rw [hTL]
    have h4 : nextFuel sv 4 ⟨none, c, lim⟩ = (none, ⟨none, c, lim⟩) := by
      show nextFuel sv (3 + 1) ⟨none, c, lim⟩ = _
      rw [nextFuel_succ]
      dsimp only
      rw [hTL]
    rw [h3, h4]
  · have hl : 0 < l := takeLimit_pos hTL
    rcases hp : sv l c with _ | ⟨m, ms⟩
    · have h3 : nextFuel sv 3 ⟨none, c, lim⟩ = (none, ⟨none, none, some 0⟩) := by
        show nextFuel sv (2 + 1) ⟨none, c, lim⟩ = _
        rw [nextFuel_succ]
        dsimp only
        rw [hTL]
        dsimp only
        rw [hp]
        simp only [List.length_nil]
        rw [if_pos hl]
        rfl
      have h4 : nextFuel sv 4 ⟨none, c, lim⟩ = (none, ⟨none, none, some 0⟩) := by
        show nextFuel sv (3 + 1) ⟨none, c, lim⟩ = _
        rw [nextFuel_succ]
        dsimp only
        rw [hTL]
        dsimp only
        rw [hp]
        simp only [List.length_nil]
        rw [if_pos hl]
        rfl
      rw [h3, h4]
    · have h3 : nextFuel sv 3 ⟨none, c, lim⟩ =
          (some m, ⟨some ms, some m.id, if (m :: ms).length < l then some 0 else lim2⟩) := by
        show nextFuel sv (2 + 1) ⟨none, c, lim⟩ = _
        rw [nextFuel_succ]
        dsimp only
        rw [hTL]
        dsimp only
        rw [hp]
        rw [show (2 : Nat) = 1 + 1 from rfl, nextFuel_succ]
      have h4 : nextFuel sv 4 ⟨none, c, lim⟩ =
          (some m, ⟨some ms, some m.id, if (m :: ms).length < l then some 0 else lim2⟩) := by
        show nextFuel sv (3 + 1) ⟨none, c, lim⟩ = _
        rw [nextFuel_succ]
        dsimp only
        rw [hTL]
        dsimp only
        rw [hp]
        rw [show (3 : Nat) = 2 + 1 from rfl, nextFuel_succ]
      rw [h3, h4]

theorem CM_next_somenil (sv : Nat → Option Nat → List Msg) (c : Option Nat)
    (lim : Option Nat) :
    CM.next sv ⟨some [], c, lim⟩ = CM.next sv ⟨none, c, lim⟩ := by
  show nextFuel sv 3 ⟨none, c, lim⟩ = nextFuel sv 4 ⟨none, c, lim⟩
  exact nextFuel_none_34 sv c lim

theorem runCM_succ (sv : Nat → Option Nat → List Msg) (f : Nat) (cm : CM) :
    runCM sv (f + 1) cm =
      match CM.next sv cm with
      | (some m, cm2) => (m :: (runCM sv f cm2).1, (runCM sv f cm2).2)
      | (none, cm2) => ([], cm2) := rfl

theorem runCM_yield (sv : Nat → Option Nat → List Msg) (f : Nat) (cm : CM) (m : Msg)
    (cm2 : CM) (h : CM.next sv cm = (some m, cm2)) :
    runCM sv (f + 1) cm = (m :: (runCM sv f cm2).1, (runCM sv f cm2).2) := by
  rw [runCM_succ, h]

theorem runCM_stop (sv : Nat → Option Nat → List Msg) (f : Nat) (cm cm2 : CM)
    (h : CM.next sv cm = (none, cm2)) :
    runCM sv (f + 1) cm = ([], cm2) := by
  rw [runCM_succ, h]

theorem runCM_somenil (sv : Nat → Option Nat → List Msg) (f : Nat) (hf : 0 < f)
    (c : Option Nat) (lim : Option Nat) :
    runCM sv f ⟨some [], c, lim⟩ = runCM sv f ⟨none, c, lim⟩ := by
  obtain ⟨g, rfl⟩ : ∃ g, f = g + 1 := ⟨f - 1, by omega⟩
  rw [runCM_succ, runCM_succ, CM_next_somenil]

theorem runCM_drain (sv : Nat → Option Nat → List Msg) :
    ∀ (vec : List Msg) (f : Nat) (c : Option Nat) (lim : Option Nat),
      runCM sv (vec.length + f) ⟨some vec, c, lim⟩ =
        (vec ++ (runCM sv f ⟨some [], lastCursor vec c, lim⟩).1,
         (runCM sv f ⟨some [], lastCursor vec c, lim⟩).2)
  | [], f, c, lim => by simp [lastCursor]
  | m :: vec, f, c, lim => by
    have hlen : (m :: vec).length + f = vec.length + f + 1 := by
      simp only [List.length_cons]
      omega
    rw [hlen, runCM_yield sv (vec.length + f) _ m _ (CM_next_cons sv m vec c lim),
      runCM_drain sv vec f (some m.id) lim]
    have hcur : lastCursor vec (some m.id) = lastCursor (m :: vec) c := by
      rcases vec with _ | ⟨x, xs⟩
      · simp [lastCursor]
      · have hg := List.getLast?_eq_getLast_of_ne_nil (l := x :: xs) (by simp)
        simp [lastCursor, List.getLast?_cons_cons, hg]
    rw [hcur]
    simp

theorem afterId_eq (m : Msg) : ∀ (pre post : List Msg),
    ((pre ++ m :: post).map Msg.id).Nodup → afterId (pre ++ m :: post) m.id = post
  | [], post, _ => by simp [afterId]
  | p :: pre, post, h => by
    simp only [List.cons_append, List.map_cons, List.nodup_cons] at h
    obtain ⟨hp, hrest⟩ := h
    have hmem : m.id ∈ (pre ++ m :: post).map Msg.id :=
      List.mem_map_of_mem Msg.id (by simp)
    have hne : p.id ≠ m.id := fun he => hp (he ▸ hmem)
    simp only [afterId, if_neg hne]
    exact afterId_eq m pre post hrest

theorem serverOf_page (L pre post : List Msg) (hnd : (L.map Msg.id).Nodup)
    (hL : L = pre ++ post) (cursor : Option Nat)
    (hcur : pre = [] ∧ cursor = none ∨ ∃ m pre0, pre = pre0 ++ [m] ∧ cursor = some m.id)
    (l : Nat) : serverOf L l cursor = post.take l := by
  rcases hcur with ⟨hpre, hcurn⟩ | ⟨m, pre0, hpre, hcurs⟩
  · subst hcurn hpre
    simp only [List.nil_append] at hL
    subst hL
    rfl
  · subst hcurs hpre
    have hL2 : L = pre0 ++ m :: post := by
      rw [hL, List.append_assoc, List.singleton_append]
    rw [hL2] at hnd
    simp only [serverOf]
    rw [hL2, afterId_eq m pre0 post hnd]

theorem budget_split (ps : List Msg) (p : Msg) (lim : Option Nat) (l : Nat)
    (lim2 : Option Nat) (hTL : takeLimit lim = some (l, lim2)) :
    p :: (ps.take (l - 1) ++
        budgetTake (if (ps.take (l - 1)).length + 1 < l then some 0 else lim2)
          (ps.drop (l - 1))) =
      budgetTake lim (p :: ps) := by
  rcases lim with _ | n
  · simp only [takeLimit, Option.some.injEq, Prod.mk.injEq] at hTL
    obtain ⟨rfl, rfl⟩ := hTL
    simp only [show (100 : Nat) - 1 = 99 from rfl]
    by_cases hs : (ps.take 99).length + 1 < 100
    · rw [if_pos hs]
      have hlt := List.length_take 99 ps
      have hlen : ps.length ≤ 99 := by omega
      rw [List.take_of_length_le hlen]
      simp [budgetTake]
    · rw [if_neg hs]
      simp only [budgetTake]
      rw [List.take_append_drop]
  · rcases n with _ | n
    · simp [takeLimit] at hTL
    · simp only [takeLimit, Option.some.injEq, Prod.mk.injEq] at hTL
      obtain ⟨rfl, rfl⟩ := hTL
      by_cases hs : (ps.take (min (n + 1) 100 - 1)).length + 1 < min (n + 1) 100
      · rw [if_pos hs]
        have hlt := List.length_take (min (n + 1) 100 - 1) ps
        have hlen : ps.length ≤ min (n + 1) 100 - 1 := by omega
        rw [List.take_of_length_le hlen]
        have hlen2 : ps.length ≤ n := by omega
        simp only [budgetTake, List.take_zero, List.append_nil, List.take_succ_cons]
        rw [List.take_of_length_le hlen2]
      · rw [if_neg hs]
        have hlt := List.length_take (min (n + 1) 100 - 1) ps
        by_cases hn100 : n + 1 ≤ 100
        · have hleq : min (n + 1) 100 = n + 1 := by omega
          have h0 : n + 1 - 100 = 0 := by omega
          rw [hleq]
          simp only [budgetTake, h0, List.take_zero, List.append_nil, Nat.add_sub_cancel,
            List.take_succ_cons]
        · have hleq : min (n + 1) 100 = 100 := by omega
          have h100 : n + 1 - 100 = n - 99 := by omega
          rw [hleq]
          simp only [budgetTake, h100, show (100 : Nat) - 1 = 99 from rfl,
            List.take_succ_cons]
          have hsplit := List.take_add ps 99 (n - 99)
          have hn : 99 + (n - 99) = n := by omega
          rw [hn] at hsplit
          rw [hsplit]

theorem run_fetch (L : List Msg) (hnd : (L.map Msg.id).Nodup) :
    ∀ (k : Nat) (post pre : List Msg) (cursor : Option Nat) (lim : Option Nat) (f : Nat),
      post.length = k →
      L = pre ++ post →
      (pre = [] ∧ cursor = none ∨ ∃ m pre0, pre = pre0 ++ [m] ∧ cursor = some m.id) →
      post.length < f →
      (runCM (serverOf L) f ⟨none, cursor, lim⟩).1 = budgetTake lim post ∧
      ∀ sv, CM.next sv (runCM (serverOf L) f ⟨none, cursor, lim⟩).2 =
        (none, (runCM (serverOf L) f ⟨none, cursor, lim⟩).2) := by
  intro k
  induction k using Nat.strong_induction_on with
  | _ k IH =>
  intro post pre cursor lim f hk hL hcur hf
  obtain ⟨f, rfl⟩ : ∃ g, f = g + 1 := ⟨f - 1, by omega⟩
  by_cases hlim0 : lim = some 0
  · subst hlim0
    rw [runCM_stop (serverOf L) f _ _ (CM_next_zero (serverOf L) cursor)]
    exact ⟨by simp [budgetTake], fun sv => CM_next_zero sv cursor⟩
  · have hTLex : ∃ l lim2, takeLimit lim = some (l, lim2) := by
      rcases lim with _ | n
      · exact ⟨100, none, rfl⟩
      · rcases n with _ | n
        · exact absurd rfl hlim0
        · exact ⟨min (n + 1) 100, some (n + 1 - 100), rfl⟩
    obtain ⟨l, lim2, hTL⟩ := hTLex
    have hl : 0 < l := takeLimit_pos hTL
    have hpage : serverOf L l cursor = post.take l :=
      serverOf_page L pre post hnd hL cursor hcur l
    rcases post with _ | ⟨p, ps⟩
    · -- the page is empty: feed exhausted
      have hp : serverOf L l cursor = [] := by simpa using hpage
      rw [runCM_stop (serverOf L) f _ _
        (CM_next_fetch_nil (serverOf L) cursor lim l lim2 hTL hp)]
      refine ⟨?_, fun sv => CM_next_zero sv none⟩
      rcases lim with _ | n <;> simp [budgetTake]
    · -- the page starts with p
      simp only [List.length_cons] at hk hf
      have hl1 : l - 1 + 1 = l := by omega
      have hpage2 : serverOf L l cursor = p :: ps.take (l - 1) := by
        rw [hpage]
        conv_lhs => rw [← hl1]
        rw [List.take_succ_cons]
      rw [runCM_yield (serverOf L) f _ p _
        (CM_next_fetch_cons (serverOf L) cursor lim l lim2 p (ps.take (l - 1)) hTL hpage2)]
      have htl_len := List.length_take (l - 1) ps
      have hfeq : (ps.take (l - 1)).length + (f - (ps.take (l - 1)).length) = f := by
        omega
      rw [← hfeq, runCM_drain,
        runCM_somenil (serverOf L) (f - (ps.take (l - 1)).length) (by omega)]
      have hLsplit : L = (pre ++ p :: ps.take (l - 1)) ++ ps.drop (l - 1) := by
        rw [hL, List.append_assoc, List.cons_append, List.take_append_drop]
      have hcur2 : pre ++ p :: ps.take (l - 1) = [] ∧
            lastCursor (ps.take (l - 1)) (some p.id) = none ∨
          ∃ m pre0, pre ++ p :: ps.take (l - 1) = pre0 ++ [m] ∧
            lastCursor (ps.take (l - 1)) (some p.id) = some m.id := by
        right
        by_cases hemp : ps.take (l - 1) = []
        · exact ⟨p, pre, by simp [hemp], by simp [hemp, lastCursor]⟩
        · refine ⟨(ps.take (l - 1)).getLast hemp,
            pre ++ p :: (ps.take (l - 1)).dropLast, ?_, ?_⟩
          · conv_rhs => rw [List.append_assoc]
            rw [List.cons_append, List.dropLast_append_getLast hemp]
          · simp [lastCursor, List.getLast?_eq_getLast_of_ne_nil hemp]
      have hlen2 : (ps.drop (l - 1)).length < k := by
        rw [List.length_drop]
        omega
      have hf2 : (ps.drop (l - 1)).length < f - (ps.take (l - 1)).length := by
        rw [List.length_drop]
        omega
      obtain ⟨hout, hfin⟩ := IH (ps.drop (l - 1)).length hlen2 (ps.drop (l - 1))
        (pre ++ p :: ps.take (l - 1)) (lastCursor (ps.take (l - 1)) (some p.id))
        (if (ps.take (l - 1)).length + 1 < l then some 0 else lim2)
        (f - (ps.take (l - 1)).length) rfl hLsplit hcur2 hf2
      refine ⟨?_, fun sv => ?_⟩
      · dsimp only
        rw [hout]
        exact budget_split ps p lim l lim2 hTL
      · dsimp only
        exact hfin sv

/-- Claim C6: for the History Reader scenario (a server owning a fixed
feed that returns exactly the requested number of items per page until a
final short page), driving `ChannelMessages::next` from a fresh cursor
yields — for any initial budget, bounded or unbounded — exactly the
budget-limited prefix of the feed, each item exactly once and in order
(each page requested with size `min(budget, 100)` and `before` set to
the last yielded id, per `takeLimit`/`CM.next`); after the feed is
exhausted the budget is pinned to zero, and one further `next` call
returns `None` and does so for EVERY server function — i.e. without
issuing another request. -/
theorem C6_history_reader (L : List Msg) (hnd : (L.map Msg.id).Nodup) (b : Option Nat) :
    (runCM (serverOf L) (L.length + 1) ⟨none, none, b⟩).1 = budgetTake b L ∧
    ∀ sv, CM.next sv (runCM (serverOf L) (L.length + 1) ⟨none, none, b⟩).2 =
      (none, (runCM (serverOf L) (L.length + 1) ⟨none, none, b⟩).2) :=
  run_fetch L hnd L.length L [] none b (L.length + 1) rfl (by simp)
    (Or.inl ⟨rfl, rfl⟩) (by omega)

theorem C6_history_reader_witness :
    (runCM (serverOf [⟨1⟩, ⟨2⟩, ⟨3⟩]) 4 ⟨none, none, some 2⟩).1 = [⟨1⟩, ⟨2⟩] ∧
    CM.next (serverOf []) (runCM (serverOf [⟨1⟩, ⟨2⟩, ⟨3⟩]) 4 ⟨none, none, some 2⟩).2 =
      (none, (runCM (serverOf [⟨1⟩, ⟨2⟩, ⟨3⟩]) 4 ⟨none, none, some 2⟩).2) := by
  have h := C6_history_reader [⟨1⟩, ⟨2⟩, ⟨3⟩] (by decide) (some 2)
  exact ⟨h.1, h.2 (serverOf [])⟩
